import Mathlib

/-!
A verification development for the PDS extraction/matching core
(`pds_extractor.py`, `main.py`): the page-text normalizer, the section
segmenter, the approvals and typical-properties extractors, and the
name normalizer & resolver. Text is modelled as `List Char` (Python
strings are sequences of code points); compiled regex patterns are
modelled either abstractly by their `search` behaviour or concretely by
a small backtracking matcher mirroring Python `re` semantics for the
constructs the source patterns use.
-/

/-! ## Character classes and Python string helpers -/

/-- Python `\s` / `str.strip()` whitespace, modelled on the whitespace
characters arising in this repository's texts (ASCII whitespace plus the
no-break space). -/
def isPySpace (c : Char) : Bool :=
  c = ' ' || c = '\t' || c = '\n' || c = '\r' ||
  c.toNat = 11 || c.toNat = 12 || c.toNat = 160

def isAsciiUpper (c : Char) : Bool := 65 ≤ c.toNat && c.toNat ≤ 90

def isAsciiLower (c : Char) : Bool := 97 ≤ c.toNat && c.toNat ≤ 122

def isAsciiAlpha (c : Char) : Bool := isAsciiUpper c || isAsciiLower c

def isDigitChar (c : Char) : Bool := 48 ≤ c.toNat && c.toNat ≤ 57

/-- The characters kept by the `[^a-z0-9]` deletion in `_norm_name`. -/
def isLowerAlnum (c : Char) : Bool := isAsciiLower c || isDigitChar c

/-- Word character for `\b`, modelled as ASCII `[A-Za-z0-9_]`. -/
def isWordChar (c : Char) : Bool := isAsciiAlpha c || isDigitChar c || c = '_'

/-- Python `str.lower()`, modelled on its ASCII behaviour (identity on the
other characters this repository manipulates). -/
def pyLowerChar (c : Char) : Char :=
  if 65 ≤ c.toNat && c.toNat ≤ 90 then Char.ofNat (c.toNat + 32) else c

/-- The scan of Python `str.replace(old, new)` with explicit fuel (one
unit per input position, so `fuel = s.length` always suffices): replaces
non-overlapping occurrences of `old` left to right. -/
def pyReplaceGo (old new : List Char) : Nat → List Char → List Char
  | _, [] => []
  | 0, s => s
  | fuel + 1, c :: t =>
    if old ≠ [] ∧ old.isPrefixOf (c :: t) then
      new ++ pyReplaceGo old new fuel ((c :: t).drop old.length)
    else
      c :: pyReplaceGo old new fuel t

/-- Python `str.replace(old, new)` on code-point lists. Every call site
in the source passes a non-empty `old`; for an empty `old` this model is
the identity. -/
def pyReplace (old new s : List Char) : List Char :=
  pyReplaceGo old new s.length s

/-- Python `str.strip()`. -/
def pyStrip (s : List Char) : List Char :=
  ((s.dropWhile isPySpace).reverse.dropWhile isPySpace).reverse

/-- One-pass run collapsing for `re.sub(r"\s+", " ", s)`: the flag says
whether the previous character belonged to a whitespace run. -/
def collapseWsGo : Bool → List Char → List Char
  | _, [] => []
  | inRun, c :: t =>
    if isPySpace c then
      (if inRun then [] else [' ']) ++ collapseWsGo true t
    else c :: collapseWsGo false t

/-- `re.sub(r"\s+", " ", s)`: each whitespace run becomes one space. -/
def collapseWs (s : List Char) : List Char := collapseWsGo false s

/-- `_norm`: strip, then collapse internal whitespace runs to one space. -/
def pyNorm (s : List Char) : List Char := collapseWs (pyStrip s)

def collapseSpTabGo : Bool → List Char → List Char
  | _, [] => []
  | inRun, c :: t =>
    if c = ' ' || c = '\t' then
      (if inRun then [] else [' ']) ++ collapseSpTabGo true t
    else c :: collapseSpTabGo false t

/-- `re.sub(r"[ \t]+", " ", s)`: each space/tab run becomes one space. -/
def collapseSpTab (s : List Char) : List Char := collapseSpTabGo false s

/-- One-pass collapsing for `re.sub(r"\n{3,}", "\n\n", s)`: `k` counts
the newlines already seen in the current run; only the first two of a
run are kept, so runs of three or more come out as exactly two. -/
def collapseNL3Go : Nat → List Char → List Char
  | _, [] => []
  | k, c :: t =>
    if c = '\n' then
      (if k < 2 then ['\n'] else []) ++ collapseNL3Go (k + 1) t
    else c :: collapseNL3Go 0 t

/-- `re.sub(r"\n{3,}", "\n\n", s)`: newline runs of three or more become
exactly two; shorter runs are kept. -/
def collapseNL3 (s : List Char) : List Char := collapseNL3Go 0 s

/-- A line-break character of `str.splitlines` other than `\r`
(`\r` and `\r\n` are handled by the splitter itself). -/
def isLineBreakChar (c : Char) : Bool :=
  c = '\n' || c.toNat = 11 || c.toNat = 12 || c.toNat = 28 ||
  c.toNat = 29 || c.toNat = 30 || c.toNat = 133 ||
  c.toNat = 8232 || c.toNat = 8233

def splitlinesGo : List Char → List Char → List (List Char)
  | cur, [] => [cur.reverse]
  | cur, '\r' :: '\n' :: t =>
    cur.reverse :: (if t.isEmpty then [] else splitlinesGo [] t)
  | cur, c :: t =>
    if c = '\r' || isLineBreakChar c then
      cur.reverse :: (if t.isEmpty then [] else splitlinesGo [] t)
    else splitlinesGo (c :: cur) t

/-- Python `str.splitlines()`: no entry is produced after a terminal
line break, and an empty string yields no lines. -/
def pySplitlines (s : List Char) : List (List Char) :=
  if s.isEmpty then [] else splitlinesGo [] s

/-! ## Section segmenter (`_section_after`) -/

/-- A compiled pattern abstracted by its `search` behaviour: the first
match in the text as `(start, end)` code-point offsets, or `none`.
`_section_after` only consults `m.end()` of anchor matches and
`m2.start()` of stop matches. -/
def Pat : Type := List Char → Option (Nat × Nat)

/-- The anchor loop of `_section_after`: the first pattern in order that
matches anywhere wins; its match's end offset is returned. -/
def firstAnchorEnd : List Pat → List Char → Option Nat
  | [], _ => none
  | p :: rest, s =>
    match p s with
    | some m => some m.2
    | none => firstAnchorEnd rest s

/-- The stop loop of `_section_after`: the first pattern in order that
matches the snippet wins; its match's start offset is returned. -/
def firstStopStart : List Pat → List Char → Option Nat
  | [], _ => none
  | p :: rest, s =>
    match p s with
    | some m => some m.1
    | none => firstStopStart rest s

/-- Python slice `s[a:b]` for non-negative bounds (clamped at the ends). -/
def pySlice (s : List Char) (a b : Nat) : List Char := (s.drop a).take (b - a)

/-- `_section_after(text, anchors, stop_markers, max_chars)`. -/
def sectionAfter (text : List Char) (anchors stops : List Pat)
    (maxChars : Nat := 1500) : Option (List Char) :=
  match firstAnchorEnd anchors text with
  | none => none
  | some start =>
    let snippet := pySlice text start (start + maxChars)
    let stop :=
      match firstStopStart stops snippet with
      | some off => start + off
      | none => text.length
    some (pySlice text start stop)

/-- Index of the first occurrence of `pat` as a contiguous substring. -/
def findSub (pat : List Char) : List Char → Option Nat
  | [] => if pat.isEmpty then some 0 else none
  | c :: t =>
    if pat.isPrefixOf (c :: t) then some 0
    else (findSub pat t).map (· + 1)

/-- The pattern of a literal (no metacharacters) regex. -/
def litPat (pat : List Char) : Pat :=
  fun s => (findSub pat s).map (fun i => (i, i + pat.length))

/-! ## A backtracking matcher for the source's concrete regexes

Mirrors Python `re` semantics for the constructs those patterns use:
ordered alternation, greedy and lazy repetition of character classes,
greedy option, capture groups and the `\b` word boundary. -/

inductive Re where
  | eps
  | lit (cs : List Char)
  | litCI (cs : List Char)
  | cls (p : Char → Bool)
  | seq (a b : Re)
  | alt (a b : Re)
  | starG (p : Char → Bool)
  | starL (p : Char → Bool)
  | plusG (p : Char → Bool)
  | opt (a : Re)
  | grp (i : Nat) (a : Re)
  | wb

/-- Captured groups; a later capture for an index shadows earlier ones. -/
abbrev Caps := List (Nat × List Char)

def getCap (caps : Caps) (i : Nat) : Option (List Char) :=
  (caps.find? (fun p => p.1 == i)).map Prod.snd

/-- First `some` among `f n` for `n` drawn from the given order. -/
def firstSome (f : Nat → Option α) : List Nat → Option α
  | [] => none
  | n :: rest =>
    match f n with
    | some r => some r
    | none => firstSome f rest

/-- The character preceding the position reached after consuming `n`
characters of `s`, given the character `prev` preceding `s`. -/
def afterN (prev : Option Char) (s : List Char) (n : Nat) : Option Char :=
  if n = 0 then prev else s[n - 1]?

/-- Case-insensitive prefix test (the pattern side is written lowercase). -/
def ciStartsWith : List Char → List Char → Bool
  | [], _ => true
  | _ :: _, [] => false
  | c :: cs, d :: ds => (pyLowerChar c == pyLowerChar d) && ciStartsWith cs ds

/-- CPS backtracking run: `prev` is the character just before `s` (for
`\b`), `caps` the captures so far; the continuation receives the rest of
the input and may reject, forcing further backtracking. -/
def mrun : Re → Option Char → List Char → Caps →
    (Option Char → List Char → Caps → Option (List Char × Caps)) →
    Option (List Char × Caps)
  | .eps, prev, s, caps, k => k prev s caps
  | .lit cs, prev, s, caps, k =>
    if cs.isPrefixOf s then k (afterN prev s cs.length) (s.drop cs.length) caps
    else none
  | .litCI cs, prev, s, caps, k =>
    if ciStartsWith cs s then k (afterN prev s cs.length) (s.drop cs.length) caps
    else none
  | .cls p, _, s, caps, k =>
    match s with
    | [] => none
    | c :: t => if p c then k (some c) t caps else none
  | .seq a b, prev, s, caps, k =>
    mrun a prev s caps (fun p2 s2 c2 => mrun b p2 s2 c2 k)
  | .alt a b, prev, s, caps, k =>
    match mrun a prev s caps k with
    | some r => some r
    | none => mrun b prev s caps k
  | .starG p, prev, s, caps, k =>
    let mx := (s.takeWhile p).length
    firstSome (fun n => k (afterN prev s n) (s.drop n) caps)
      ((List.range (mx + 1)).reverse)
  | .starL p, prev, s, caps, k =>
    let mx := (s.takeWhile p).length
    firstSome (fun n => k (afterN prev s n) (s.drop n) caps)
      (List.range (mx + 1))
  | .plusG p, prev, s, caps, k =>
    let mx := (s.takeWhile p).length
    firstSome (fun n => k (afterN prev s n) (s.drop n) caps)
      ((List.range' 1 mx).reverse)
  | .opt a, prev, s, caps, k =>
    match mrun a prev s caps k with
    | some r => some r
    | none => k prev s caps
  | .grp i a, prev, s, caps, k =>
    mrun a prev s caps
      (fun p2 s2 c2 => k p2 s2 ((i, s.take (s.length - s2.length)) :: c2))
  | .wb, prev, s, caps, k =>
    let lw := match prev with | some c => isWordChar c | none => false
    let rw := match s with | c :: _ => isWordChar c | [] => false
    if lw != rw then k prev s caps else none

/-- `pattern.search(s)` from position `pos`: leftmost match wins. -/
def searchFrom (r : Re) : Option Char → List Char → Nat → Option (Nat × Nat × Caps)
  | prev, s, pos =>
    match mrun r prev s [] (fun _ rest caps => some (rest, caps)) with
    | some (rest, caps) => some (pos, pos + (s.length - rest.length), caps)
    | none =>
      match s with
      | [] => none
      | c :: t => searchFrom r (some c) t (pos + 1)

/-- `pattern.search(s)`: `(start, end, captures)` of the first match. -/
def reSearch (r : Re) (s : List Char) : Option (Nat × Nat × Caps) :=
  searchFrom r none s 0

/-- The `Pat` view of a concrete regex. -/
def rePat (r : Re) : Pat :=
  fun s => (reSearch r s).map (fun m => (m.1, m.2.1))

/-- `pattern.match(s)` for a pattern ending in `$`, on a string with no
line breaks: anchored at the start, forced to consume everything. -/
def reMatchFull (r : Re) (s : List Char) : Option Caps :=
  (mrun r none s []
    (fun _ rest caps => if rest.isEmpty then some (rest, caps) else none)).map
    Prod.snd

/-! ## The source's concrete regexes as matcher terms -/

def altList : List Re → Re
  | [] => .eps
  | [r] => r
  | r :: rest => .alt r (altList rest)

/-- A case-insensitive word with an optional trailing `s` (`Word s?`). -/
def optS (stem : String) : Re := .seq (.litCI stem.toList) (.opt (.litCI ['s']))

/-- `Typical (?:properties|characteristics|values|data)`, `re.I`. -/
def tpAnchorRe : Re :=
  .seq (.litCI "typical ".toList)
    (altList [.litCI "properties".toList, .litCI "characteristics".toList,
              .litCI "values".toList, .litCI "data".toList])

/-- `Approvals?|Specifications?|Performance`, `re.I`. -/
def tpStop1Re : Re :=
  altList [optS "approval", optS "specification", .litCI "performance".toList]

/-- `Health|Safety|Handling|Storage`, `re.I`. -/
def tpStop2Re : Re :=
  altList [.litCI "health".toList, .litCI "safety".toList,
           .litCI "handling".toList, .litCI "storage".toList]

def upSpCls (c : Char) : Bool := isAsciiUpper c || c = ' '

/-- `\n[A-Z ]{4,}\n` (the next all-caps header). -/
def capsHeaderRe : Re :=
  .seq (.lit ['\n']) (.seq (.cls upSpCls) (.seq (.cls upSpCls)
    (.seq (.cls upSpCls) (.seq (.cls upSpCls)
      (.seq (.starG upSpCls) (.lit ['\n']))))))

/-- The anchor list of `_extract_typical_properties`. -/
def tpAnchors : List Pat := [rePat tpAnchorRe]

/-- The stop list of `_extract_typical_properties`. -/
def tpStops : List Pat := [rePat tpStop1Re, rePat tpStop2Re, rePat capsHeaderRe]

/-- `Approvals?\s*&?\s*/?\s*Specifications?`, `re.I`. -/
def apAnchor1Re : Re :=
  .seq (optS "approval") (.seq (.starG isPySpace) (.seq (.opt (.lit ['&']))
    (.seq (.starG isPySpace) (.seq (.opt (.lit ['/']))
      (.seq (.starG isPySpace) (optS "specification"))))))

/-- `Performance(?: levels?)?`, `re.I`. -/
def apAnchor3Re : Re :=
  .seq (.litCI "performance".toList)
    (.opt (.seq (.litCI " level".toList) (.opt (.litCI ['s']))))

/-- `Meets (?:or exceeds )?the requirements of`, `re.I`. -/
def apAnchor4Re : Re :=
  .seq (.litCI "meets ".toList)
    (.seq (.opt (.litCI "or exceeds ".toList))
      (.litCI "the requirements of".toList))

/-- `\b(TOK|...|TOK)\b`, `re.I`, for a vocabulary of tokens. -/
def tokenAltsRe (toks : List String) : Re :=
  .seq .wb (.seq (.grp 1 (altList (toks.map (fun t => Re.litCI t.toList)))) .wb)

/-- `\b(API|ACEA|ILSAC|JASO|VW|MB|BMW|FORD|GM|DEXOS)\b`, `re.I`. -/
def apAnchor5Re : Re :=
  tokenAltsRe ["api", "acea", "ilsac", "jaso", "vw", "mb", "bmw", "ford",
               "gm", "dexos"]

/-- The anchor list of `_extract_approvals`. -/
def apAnchors : List Pat :=
  [rePat apAnchor1Re, rePat (optS "specification"), rePat apAnchor3Re,
   rePat apAnchor4Re, rePat apAnchor5Re]

/-- The stop list of `_extract_approvals`. -/
def apStops : List Pat :=
  [rePat tpAnchorRe, rePat (.litCI "typical".toList),
   rePat (altList [.litCI "health".toList, .litCI "safety".toList,
                   .litCI "handling".toList]),
   rePat (.litCI "storage".toList), rePat capsHeaderRe]

/-- The `keep_tokens` vocabulary regex of `_extract_approvals`. -/
def keepTokensRe : Re :=
  tokenAltsRe ["api", "acea", "ilsac", "jaso", "vw", "mb", "bmw", "ford",
               "gm", "dexos", "psa", "fiat", "renault", "volvo", "man",
               "cummins", "allison"]

/-- `[A-Za-zµ%°/.\-\s]` — the units tail class of `row_re`'s value. -/
def unitsCls (c : Char) : Bool :=
  isAsciiAlpha c || c = 'µ' || c = '%' || c = '°' || c = '/' || c = '.' ||
  c = '-' || isPySpace c

/-- `[\d\.,]` — the numeric core class of `row_re`'s value. -/
def valueDigitCls (c : Char) : Bool := isDigitChar c || c = '.' || c = ','

/-- `row_re`: `^(?P<name>[A-Za-z].*?)\s*[:\.]\s*`
`(?P<value>[<>]?\s*[\d\.,]+(?:\s*[A-Za-zµ%°/.\-\s]+)?)`
`(?:\s*\(\s*(?P<method>ASTM[^)]*)\))?$` with groups 1, 2, 3 for
name, value, method. -/
def rowNameRe : Re :=
  .grp 1 (.seq (.cls isAsciiAlpha) (.starL (fun c => !(c == '\n'))))

def rowValueRe : Re :=
  .grp 2 (.seq (.opt (.cls (fun c => c == '<' || c == '>')))
    (.seq (.starG isPySpace)
      (.seq (.plusG valueDigitCls)
        (.opt (.seq (.starG isPySpace) (.plusG unitsCls))))))

def rowMethodRe : Re :=
  .opt (.seq (.starG isPySpace)
    (.seq (.lit ['('])
      (.seq (.starG isPySpace)
        (.seq (.grp 3 (.seq (.lit "ASTM".toList) (.starG (fun c => !(c == ')')))))
          (.lit [')'])))))

def rowRe : Re :=
  .seq rowNameRe
    (.seq (.starG isPySpace)
      (.seq (.cls (fun c => c == ':' || c == '.'))
        (.seq (.starG isPySpace)
          (.seq rowValueRe rowMethodRe))))

def noColonNLCls (c : Char) : Bool := !(c == ':') && !(c == '\n')

def notNLCls (c : Char) : Bool := !(c == '\n')

/-- `[:\.]\s*([^\n]+)` — the common tail of the loose patterns, with the
value as group 2. -/
def looseTailRe : Re :=
  .seq (.cls (fun c => c == ':' || c == '.'))
    (.seq (.starG isPySpace) (.grp 2 (.plusG notNLCls)))

/-- The loose `(label, regex)` pairs tried when no `row_re` line matched. -/
def loosePats : List (String × Re) :=
  [("Viscosity",
    .seq (.grp 1 (.seq (.lit "Viscosity".toList) (.plusG noColonNLCls)))
      looseTailRe),
   ("Viscosity Index",
    .seq (.grp 1 (.lit "Viscosity Index".toList)) looseTailRe),
   ("Pour Point",
    .seq (.grp 1 (.lit "Pour Point".toList))
      (.seq (.starG noColonNLCls) looseTailRe)),
   ("Flash Point",
    .seq (.grp 1 (.lit "Flash Point".toList))
      (.seq (.starG noColonNLCls) looseTailRe)),
   ("Specific Gravity",
    .seq (.grp 1 (.seq (.lit "Specific Gravity".toList) (.starG noColonNLCls)))
      looseTailRe),
   ("TBN",
    .seq (.grp 1 (.seq (.lit "TBN".toList) (.starG noColonNLCls)))
      looseTailRe)]

/-! ## Field extractors -/

/-- A split character of `_split_items`' `[;\n•\-]\s*` separator. -/
def isSplitChar (c : Char) : Bool := c = ';' || c = '\n' || c = '•' || c = '-'

/-- The split scan of `_split_items`' separator `[;\n•\-]\s*`: `skip`
says the scan is inside the `\s*` tail of a separator just matched (such
whitespace belongs to the separator and starts no new part). -/
def splitItemsGo : Bool → List Char → List Char → List (List Char)
  | _, cur, [] => [cur.reverse]
  | skip, cur, c :: t =>
    if skip && isPySpace c then splitItemsGo true cur t
    else if isSplitChar c then cur.reverse :: splitItemsGo true [] t
    else splitItemsGo false (c :: cur) t

/-- `_split_items`: split on `[;\n•\-]\s*`, `_norm` each part, keep the
non-empty parts. -/
def splitItems (s : List Char) : List (List Char) :=
  ((splitItemsGo false [] s).map pyNorm).filter (fun p => !p.isEmpty)

/-- Python's falsy fallback `_section_after(...) or text[:3000]` used by
both extractors when segmentation yields nothing (or an empty slice). -/
def blobOr (fallback : List Char) : Option (List Char) → List Char
  | none => fallback
  | some s => if s.isEmpty then fallback else s

/-- The `blob` of `_extract_approvals`. -/
def approvalsBlob (text : List Char) : List Char :=
  blobOr (text.take 3000) (sectionAfter text apAnchors apStops 1500)

/-- `keep_tokens.search(line)` truthiness. -/
def hasKeepToken (line : List Char) : Bool := (reSearch keepTokensRe line).isSome

/-- The `items` list of `_extract_approvals`: candidate lines of the blob
that contain a recognized approvals token. -/
def approvalItems (text : List Char) : List (List Char) :=
  (splitItems (approvalsBlob text)).filter hasKeepToken

/-- The order-preserving, case-insensitive deduplication loop of
`_extract_approvals` (`seen` holds the lowered keys already emitted). -/
def dedupCI (seen : List (List Char)) : List (List Char) → List (List Char)
  | [] => []
  | x :: rest =>
    let key := x.map pyLowerChar
    if seen.contains key then dedupCI seen rest
    else x :: dedupCI (key :: seen) rest

/-- `_extract_approvals`. -/
def extractApprovals (text : List Char) : List (List Char) :=
  dedupCI [] (approvalItems text)

structure PropertyRow where
  ordinal : Nat
  property_name : List Char
  test_method : Option (List Char)
  value : List Char
deriving DecidableEq, Repr

/-- The small name cleanups of `_extract_typical_properties`
(`.replace("mm2/s", "mm2/s").replace("mm²/s", "mm2/s")`). -/
def rowCleanName (name : List Char) : List Char :=
  pyReplace "mm²/s".toList "mm2/s".toList
    (pyReplace "mm2/s".toList "mm2/s".toList name)

/-- One line against `row_re`: `(name, method, value)` after `_norm` and
the name cleanups; `method` is `""` when group 3 did not participate. -/
def rowOfLine (ln : List Char) : Option (List Char × List Char × List Char) :=
  match reMatchFull rowRe ln with
  | none => none
  | some caps =>
    let name := pyNorm ((getCap caps 1).getD [])
    let val := pyNorm ((getCap caps 2).getD [])
    let method := pyNorm ((getCap caps 3).getD [])
    some (rowCleanName name, method, val)

/-- The main line loop of `_extract_typical_properties`, carrying the
running ordinal. -/
def scanRows : List (List Char) → Nat → List PropertyRow
  | [], _ => []
  | ln :: rest, ord =>
    match rowOfLine ln with
    | none => scanRows rest ord
    | some (name, method, val) =>
      { ordinal := ord, property_name := name,
        test_method := if method.isEmpty then none else some method,
        value := val } :: scanRows rest (ord + 1)

/-- The loose fallback loop of `_extract_typical_properties`: one search
per well-known label, at most one row each, in label order. -/
def loosePass (sect : List Char) : List (String × Re) → Nat → List PropertyRow
  | [], _ => []
  | (_, rx) :: rest, ord =>
    match reSearch rx sect with
    | none => loosePass sect rest ord
    | some m =>
      { ordinal := ord, property_name := pyNorm ((getCap m.2.2 1).getD []),
        test_method := none,
        value := pyNorm ((getCap m.2.2 2).getD []) } :: loosePass sect rest (ord + 1)

/-- `_extract_typical_properties`. -/
def extractTypicalProperties (text : List Char) : List PropertyRow :=
  let sect := blobOr text (sectionAfter text tpAnchors tpStops 3000)
  let lines := ((pySplitlines sect).map pyStrip).filter (fun ln => !ln.isEmpty)
  let props := scanRows lines 1
  if props.isEmpty then loosePass sect loosePats 1 else props

/-- `[A-Za-z0-9./ -]` — the captured class of the labeled version form. -/
def verCls (c : Char) : Bool :=
  isAsciiAlpha c || isDigitChar c || c = '.' || c = '/' || c = ' ' || c = '-'

/-- `(?:Revision|Rev\.?|Version)\s*[: ]\s*([A-Za-z0-9./ -]{2,})`, `re.I`. -/
def verPat1Re : Re :=
  .seq (altList [.litCI "revision".toList,
                 .seq (.litCI "rev".toList) (.opt (.lit ['.'])),
                 .litCI "version".toList])
    (.seq (.starG isPySpace)
      (.seq (.cls (fun c => c == ':' || c == ' '))
        (.seq (.starG isPySpace)
          (.grp 1 (.seq (.cls verCls) (.seq (.cls verCls) (.starG verCls)))))))

/-- `\b(\d{3}/\d+[A-Za-z]?)\b`. -/
def verPat2Re : Re :=
  .seq .wb (.seq (.grp 1 (.seq (.cls isDigitChar) (.seq (.cls isDigitChar)
    (.seq (.cls isDigitChar) (.seq (.lit ['/'])
      (.seq (.plusG isDigitChar) (.opt (.cls isAsciiAlpha)))))))) .wb)

/-- `\b(\d{2,4}/\d{1,2}[A-Za-z]?)\b`. -/
def verPat3Re : Re :=
  .seq .wb (.seq (.grp 1 (.seq (.cls isDigitChar) (.seq (.cls isDigitChar)
    (.seq (.opt (.seq (.cls isDigitChar) (.opt (.cls isDigitChar))))
      (.seq (.lit ['/'])
        (.seq (.cls isDigitChar) (.seq (.opt (.cls isDigitChar))
          (.opt (.cls isAsciiAlpha))))))))) .wb)

/-- `_norm(m.group(1).replace(" / ", "/").replace("  ", " "))`. -/
def verClean (g : List Char) : List Char :=
  pyNorm (pyReplace "  ".toList " ".toList (pyReplace " / ".toList "/".toList g))

def extractVersionGo (text : List Char) : List Re → Option (List Char)
  | [] => none
  | r :: rest =>
    match reSearch r text with
    | some m => some (verClean ((getCap m.2.2 1).getD []))
    | none => extractVersionGo text rest

/-- `_extract_version`: the three patterns tried in order. -/
def extractVersion (text : List Char) : Option (List Char) :=
  extractVersionGo text [verPat1Re, verPat2Re, verPat3Re]

/-- The dense reassignment `for i, row in enumerate(props, 1)` of
`extract_pds`. -/
def renumber : Nat → List PropertyRow → List PropertyRow
  | _, [] => []
  | i, r :: rest => { r with ordinal := i } :: renumber (i + 1) rest

structure ExtractionRecord where
  version : Option (List Char)
  approvals_and_specs : List (List Char)
  typical_properties : List PropertyRow
deriving DecidableEq, Repr

/-- `extract_pds`, restricted to its text-derived fields: `pdf` and
`product_name_line` need the filesystem / PDF-metadata collaborators and
no claim concerns them. -/
def extractPds (text : List Char) : ExtractionRecord :=
  { version := extractVersion text
    approvals_and_specs := extractApprovals text
    typical_properties := renumber 1 (extractTypicalProperties text) }

/-! ## Page text normalizer (the pure tail of `_read_text`) -/

/-- `"\n".join(texts)`. -/
def joinNL : List (List Char) → List Char
  | [] => []
  | [p] => p
  | p :: rest => p ++ '\n' :: joinNL rest

/-- `_read_text` from `raw = "\n".join(texts)` on: whitespace collapsing
then the fixed OCR/typography character replacements. -/
def normalizePages (pages : List (List Char)) : List Char :=
  let raw := joinNL pages
  let raw := pyReplace ['\r'] ['\n'] raw
  let raw := collapseSpTab raw
  let raw := collapseNL3 raw
  let raw := pyReplace ['º'] ['°'] raw
  let raw := pyReplace ['–'] ['-'] raw
  let raw := pyReplace ['—'] ['-'] raw
  pyReplace ['²'] ['2'] raw

/-! ## Name normalizer & resolver (`main.py`) -/

/-- `unicodedata.normalize('NFKD', ·)` per character, modelled on the
character set this repository manipulates (compatibility decompositions
of superscripts, ordinal indicators, the no-break space, and accented
vowels into base + combining mark); identity on other characters. -/
def nfkdChar (c : Char) : List Char :=
  if c = '²' then ['2']
  else if c = '¹' then ['1']
  else if c = '³' then ['3']
  else if c = 'º' then ['o']
  else if c = 'ª' then ['a']
  else if c.toNat = 160 then [' ']
  else if c = 'é' then ['e', Char.ofNat 769]
  else if c = 'è' then ['e', Char.ofNat 768]
  else if c = 'ü' then ['u', Char.ofNat 776]
  else [c]

/-- `unicodedata.combining(c) != 0`, modelled as the combining
diacritical marks block U+0300–U+036F. -/
def isCombiningChar (c : Char) : Bool := 768 ≤ c.toNat && c.toNat ≤ 879

/-- `_norm_name` before its token-unification `replace` chain:
lower-case, NFKD-decompose dropping combining marks, keep `[a-z0-9]`. -/
def normNameCore (s : List Char) : List Char :=
  let lowered := s.map pyLowerChar
  let stripped := (lowered.flatMap nfkdChar).filter (fun c => !isCombiningChar c)
  stripped.filter isLowerAlnum

/-- The grade/C-class tokens `_norm_name` "unifies" — each `replace`
call in the source maps a token to itself. -/
def gradeTokens : List String :=
  ["0w40", "0w30", "0w20", "5w30", "5w40", "5w20", "10w40", "10w30",
   "10w50", "c1", "c2", "c3", "c4"]

/-- `_norm_name`. -/
def normName (s : List Char) : List Char :=
  gradeTokens.foldl (fun acc t => pyReplace t.toList t.toList acc)
    (normNameCore s)

/-- The last index at which `c` occurs. -/
def lastIdxOf (c : Char) (s : List Char) : Option Nat :=
  (List.range s.length).foldl
    (fun acc i => if s[i]? = some c then some i else acc) none

/-- The final path component (`PurePath.name`, POSIX separators). -/
def afterLastSlash (s : List Char) : List Char :=
  match lastIdxOf '/' s with
  | none => s
  | some i => s.drop (i + 1)

/-- `Path(v).stem`: the final component without its last suffix (a
leading or trailing dot is not a suffix separator). -/
def pyStem (s : List Char) : List Char :=
  let n := afterLastSlash s
  match lastIdxOf '.' n with
  | some i => if 0 < i ∧ i + 1 < n.length then n.take i else n
  | none => n

/-- Python dict assignment `m[k] = v`: an existing key keeps its
position and gets the new value; a new key is appended. -/
def dictInsert (m : List (List Char × List Char)) (k v : List Char) :
    List (List Char × List Char) :=
  if m.any (fun p => p.1 == k) then
    m.map (fun p => if p.1 == k then (k, v) else p)
  else m ++ [(k, v)]

/-- The `norm_map` of `_resolve_by_name`: for each index entry, its
normalized key and the normalized filename stem of its value, both
mapping to the value, in the index's iteration order. -/
def buildNormMap (idx : List (List Char × List Char)) :
    List (List Char × List Char) :=
  idx.foldl
    (fun m kv =>
      dictInsert (dictInsert m (normName kv.1) kv.2)
        (normName (pyStem kv.2)) kv.2) []

/-- The two 404 raise sites of `_resolve_by_name`. -/
inductive ResolveErr where
  | emptyIndex
  | notFound (name : List Char)
deriving DecidableEq, Repr

/-- Dict lookup `q in norm_map` / `norm_map[q]`. -/
def assocFind (m : List (List Char × List Char)) (k : List Char) :
    Option (List Char) :=
  (m.find? (fun p => p.1 == k)).map Prod.snd

/-- Python substring test `q in nk` (true for an empty `q`). -/
def isSubstr (q : List Char) : List Char → Bool
  | [] => q.isPrefixOf []
  | c :: t => q.isPrefixOf (c :: t) || isSubstr q t

/-- The substring-fallback loop: the value of the first key (in the
working map's iteration order) containing `q`. -/
def firstSubMatch (m : List (List Char × List Char)) (q : List Char) :
    Option (List Char) :=
  (m.find? (fun p => isSubstr q p.1)).map Prod.snd

instance {ε α : Type} [DecidableEq ε] [DecidableEq α] :
    DecidableEq (Except ε α) := fun a b =>
  match a, b with
  | .error e, .error f =>
    if h : e = f then isTrue (by rw [h]) else isFalse (by simp [h])
  | .ok x, .ok y =>
    if h : x = y then isTrue (by rw [h]) else isFalse (by simp [h])
  | .error _, .ok _ => isFalse (by simp)
  | .ok _, .error _ => isFalse (by simp)

/-- `_resolve_by_name`. -/
def resolveByName (idx : List (List Char × List Char)) (name : List Char) :
    Except ResolveErr (List Char) :=
  if idx.isEmpty then .error .emptyIndex
  else
    let nm := buildNormMap idx
    let q := normName name
    match assocFind nm q with
    | some v => .ok v
    | none =>
      match firstSubMatch nm q with
      | some v => .ok v
      | none => .error (.notFound name)

/-! ## Claim C1: the `max_length` cap on segmentation -/

/-- Claim C1 (code bug evaluation): on text `"HDR0123456789"` with the
single anchor `HDR`, no stop patterns and `max_chars = 4`,
`_section_after` returns the slice all the way to end-of-text — 10
characters, exceeding the cap of 4 its own docstring promises ("ends at
the first stop marker or after max_chars"): when no stop matches, the
code sets `end = len(text)` instead of `start + max_chars`. -/
theorem c1_section_runs_past_max_length :
    sectionAfter "HDR0123456789".toList [litPat "HDR".toList] [] 4
        = some "0123456789".toList ∧
      4 < ("0123456789".toList).length := by
  exact ⟨by decide, by decide⟩

/-! ## Claim C2: the typical-properties row for a name line followed by
a method line -/

/-- Claim C2 (counterexample): on the two lines
`"Viscosity, mm2/s @ 100°C"` and `"ASTM D-445 17.5"` the extractor does
NOT emit the row (name = the first line, method = `ASTM D-445`,
value = `17.5`) the claim describes: there is no two-line state machine
in the code; the single-line `row_re` fails on the first line (it has no
`:` or `.`) and matches the second line at its decimal point. -/
theorem c2_counterexample_no_state_machine :
    extractTypicalProperties
        "Viscosity, mm2/s @ 100°C\nASTM D-445 17.5".toList
        ≠ [{ ordinal := 1,
             property_name := "Viscosity, mm2/s @ 100°C".toList,
             test_method := some "ASTM D-445".toList,
             value := "17.5".toList }] := by
  decide

/-- Claim C2 (amended): on those two lines the extractor emits exactly
one row, parsed from the second line alone — `row_re` takes the
separator `[:\.]` at the decimal point of `17.5`, so
`property_name = "ASTM D-445 17"`, `test_method` absent and
`value = "5"`. -/
theorem c2_row_parsed_from_method_line :
    extractTypicalProperties
        "Viscosity, mm2/s @ 100°C\nASTM D-445 17.5".toList
        = [{ ordinal := 1, property_name := "ASTM D-445 17".toList,
             test_method := none, value := "5".toList }] := by
  decide

/-! ## Claim C3: which stop pattern ends the section -/

/-- Claim C3 (counterexample): anchored at `A` in `"AxxCxB"`, with stop
patterns `[B, C]`, pattern `B` is first in list order and matches at
offset 4, although pattern `C` matches earlier at offset 2; the section
is `"xxCx"` and not the `"xx"` the minimum-offset rule of the claim
would give. -/
theorem c3_counterexample_not_minimum_offset :
    sectionAfter "AxxCxB".toList [litPat "A".toList]
        [litPat "B".toList, litPat "C".toList] 100 = some "xxCx".toList ∧
      "xxCx".toList ≠ "xx".toList := by
  exact ⟨by decide, by decide⟩

/-! ## Claim C4: the resolver's worked examples -/

/-- Claim C4: with the index mapping `"Valvoline SynPower ENV C2 5W-30"`
to `"doc1"`, the query `"synpower env c 2 5w30"` resolves to `"doc1"`,
the query `"ENV C2"` resolves to `"doc1"` via the substring fallback,
and the query `"nonexistent"` fails with the not-found error. -/
theorem c4_resolver_examples :
    resolveByName [("Valvoline SynPower ENV C2 5W-30".toList, "doc1".toList)]
        "synpower env c 2 5w30".toList = .ok "doc1".toList ∧
      resolveByName [("Valvoline SynPower ENV C2 5W-30".toList, "doc1".toList)]
        "ENV C2".toList = .ok "doc1".toList ∧
      resolveByName [("Valvoline SynPower ENV C2 5W-30".toList, "doc1".toList)]
        "nonexistent".toList = .error (.notFound "nonexistent".toList) := by
  exact ⟨by decide, by decide, by decide⟩

/-! ## Claim C7: which OCR artifacts the page normalizer replaces -/

/-- Claim C7 (counterexample): a no-break space (U+00A0) passes through
`_read_text`'s normalization untouched — the whitespace collapsing only
matches `[ \t]` and no `replace` call maps it — so it does NOT become a
regular space as the claim states. -/
theorem c7_counterexample_nbsp_survives :
    normalizePages [['a', Char.ofNat 160, 'b']] = ['a', Char.ofNat 160, 'b'] ∧
      Char.ofNat 160 ≠ ' ' := by
  exact ⟨by decide, by decide⟩

/-! ## Claim C10: queries that normalize to the empty string -/

/-- Claim C10 (counterexample): with index
`[("A1", "docA"), ("!!!", "docB")]` the key `"!!!"` normalizes to the
empty string, so the working map contains the empty key; the query
`"???"` (normalizing to empty) then hits the EXACT match on that key
and returns `"docB"` — not the value `"docA"` of the first key in the
working map's iteration order, as the claim's substring-fallback account
predicts. -/
theorem c10_counterexample_exact_empty_key :
    normName "???".toList = [] ∧
      resolveByName [("A1".toList, "docA".toList), ("!!!".toList, "docB".toList)]
        "???".toList = .ok "docB".toList ∧
      (buildNormMap [("A1".toList, "docA".toList), ("!!!".toList, "docB".toList)]).head?
        = some ("a1".toList, "docA".toList) ∧
      "docB".toList ≠ "docA".toList := by
  exact ⟨by decide, by decide, by decide, by decide⟩

/-- Claim C3 (amended): when an anchor matches and the stop list splits
as `pre ++ p :: post` where no pattern of `pre` matches the window but
`p` matches it at offset `off`, the section ends exactly at
`start + off` — the first stop pattern in LIST order wins, and the
patterns in `post` are never consulted, even if one of them matches at a
smaller offset. -/
theorem c3_first_listed_stop_wins
    (text : List Char) (anchors pre post : List Pat) (p : Pat)
    (maxChars start off e : Nat)
    (ha : firstAnchorEnd anchors text = some start)
    (hpre : ∀ q ∈ pre, q (pySlice text start (start + maxChars)) = none)
    (hp : p (pySlice text start (start + maxChars)) = some (off, e)) :
    sectionAfter text anchors (pre ++ p :: post) maxChars
      = some (pySlice text start (start + off)) := by
  have hstop : ∀ pr : List Pat,
      (∀ q ∈ pr, q (pySlice text start (start + maxChars)) = none) →
      firstStopStart (pr ++ p :: post) (pySlice text start (start + maxChars))
        = some off := by
    intro pr
    induction pr with
    | nil =>
      intro _
      simp only [List.nil_append, firstStopStart, hp]
    | cons q rest ih =>
      intro hq
      have h1 : q (pySlice text start (start + maxChars)) = none :=
        hq q (List.mem_cons_self q rest)
      simp only [List.cons_append, firstStopStart, h1]
      exact ih (fun r hr => hq r (List.mem_cons_of_mem q hr))
  unfold sectionAfter
  rw [ha]
  simp only [hstop pre hpre]

/-- Claim C3 (witness): the amended theorem at the concrete input
`"AxxCxB"`, anchor `A`, stops `[Z, C, B]` — `Z` does not match, `C` is
the first listed match (offset 2), so the section is `text[1:3]`,
although `B` also matches. -/
theorem c3_first_listed_stop_wins_witness :
    sectionAfter "AxxCxB".toList [litPat "A".toList]
        [litPat "Z".toList, litPat "C".toList, litPat "B".toList] 100
      = some (pySlice "AxxCxB".toList 1 (1 + 2)) :=
  c3_first_listed_stop_wins "AxxCxB".toList [litPat "A".toList]
    [litPat "Z".toList] [litPat "B".toList] (litPat "C".toList) 100 1 2 3
    (by decide)
    (by
      intro q hq
      rw [List.mem_singleton] at hq
      subst hq
      decide)
    (by decide)

/-! ## Claim C6: ordinals are densely renumbered 1..N -/

theorem renumber_map_ordinal :
    ∀ (i : Nat) (l : List PropertyRow),
      (renumber i l).map PropertyRow.ordinal = List.range' i l.length
  | _, [] => rfl
  | i, r :: rest => by
    simp only [renumber, List.map_cons, List.length_cons, List.range'_succ]
    exact congrArg (i :: ·) (renumber_map_ordinal (i + 1) rest)

theorem renumber_length :
    ∀ (i : Nat) (l : List PropertyRow), (renumber i l).length = l.length
  | _, [] => rfl
  | i, r :: rest => by
    simp only [renumber, List.length_cons]
    exact congrArg (· + 1) (renumber_length (i + 1) rest)

/-- Claim C6: for every input text, the `typical_properties` rows of the
extraction record carry ordinals that are exactly the contiguous
sequence `1..N` in emitted order (the final `enumerate(props, 1)` pass
of `extract_pds` reassigns them densely, whatever the parse strategy
produced). -/
theorem c6_ordinals_dense (text : List Char) :
    ((extractPds text).typical_properties.map PropertyRow.ordinal)
      = List.range' 1 (extractPds text).typical_properties.length := by
  show (renumber 1 (extractTypicalProperties text)).map PropertyRow.ordinal
      = List.range' 1 (renumber 1 (extractTypicalProperties text)).length
  rw [renumber_length, renumber_map_ordinal]

/-! ## Claim C7 (amended): the four fixed artifacts are all replaced -/

theorem pyReplaceGo_single (a b : Char) (fuel : Nat) :
    ∀ s : List Char, s.length ≤ fuel →
      pyReplaceGo [a] [b] fuel s = s.map (fun c => if c = a then b else c) := by
  induction fuel with
  | zero =>
    intro s hs
    have hnil : s = [] := List.eq_nil_of_length_eq_zero (Nat.le_zero.mp hs)
    subst hnil
    rfl
  | succ n ih =>
    intro s hs
    match s with
    | [] => rfl
    | c :: t =>
      have ht : t.length ≤ n := by
        simp only [List.length_cons] at hs
        omega
      simp only [pyReplaceGo]
      split
      · rename_i hcond
        have hac : a = c := by
          have h2 := hcond.2
          simp only [List.isPrefixOf, List.isPrefixOf_nil_left,
            Bool.and_true, beq_iff_eq] at h2
          exact h2
        subst hac
        simp only [List.length_singleton, List.drop_one, List.tail_cons,
          List.map_cons, if_pos rfl, ih t ht]
        rfl
      · rename_i hcond
        have hac : ¬a = c := fun h =>
          hcond ⟨by simp, by simp [List.isPrefixOf, h]⟩
        simp only [List.map_cons, ih t ht,
          if_neg (fun h : c = a => hac h.symm)]

theorem pyReplace_single (a b : Char) (s : List Char) :
    pyReplace [a] [b] s = s.map (fun c => if c = a then b else c) :=
  pyReplaceGo_single a b s.length s (Nat.le_refl _)

theorem notMem_pyReplace_single {a b : Char} (hab : a ≠ b) (s : List Char) :
    a ∉ pyReplace [a] [b] s := by
  rw [pyReplace_single]
  intro hmem
  obtain ⟨d, _, hda⟩ := List.mem_map.mp hmem
  by_cases h : d = a
  · rw [if_pos h] at hda
    exact hab hda.symm
  · rw [if_neg h] at hda
    exact h hda

theorem mem_pyReplace_single {a b c : Char} {s : List Char}
    (hc : c ∈ pyReplace [a] [b] s) (hcb : c ≠ b) : c ∈ s := by
  rw [pyReplace_single] at hc
  obtain ⟨d, hd, hdc⟩ := List.mem_map.mp hc
  by_cases h : d = a
  · rw [if_pos h] at hdc
    exact absurd hdc.symm hcb
  · rw [if_neg h] at hdc
    exact hdc ▸ hd

/-- Claim C7 (amended): for every page sequence, the normalized text
contains no alternate degree sign `º`, no en-dash, no em-dash and no
superscript 2 — each is replaced by its canonical equivalent as the
claim states; the no-break space, however, is left unchanged (see the
counterexample), so it is removed from the list of replaced artifacts. -/
theorem c7_degree_dash_superscript_all_replaced (pages : List (List Char)) :
    (normalizePages pages).all
      (fun c => !(c == 'º' || c == '–' || c == '—' || c == '²')) = true := by
  rw [List.all_eq_true]
  intro c hc
  simp only [normalizePages] at hc
  simp only [Bool.not_eq_true', Bool.or_eq_false_iff, beq_eq_false_iff_ne, ne_eq]
  refine ⟨⟨⟨?_, ?_⟩, ?_⟩, ?_⟩
  · intro h
    subst h
    have h1 := mem_pyReplace_single hc (by decide)
    have h2 := mem_pyReplace_single h1 (by decide)
    have h3 := mem_pyReplace_single h2 (by decide)
    exact notMem_pyReplace_single (by decide) _ h3
  · intro h
    subst h
    have h1 := mem_pyReplace_single hc (by decide)
    have h2 := mem_pyReplace_single h1 (by decide)
    exact notMem_pyReplace_single (by decide) _ h2
  · intro h
    subst h
    have h1 := mem_pyReplace_single hc (by decide)
    exact notMem_pyReplace_single (by decide) _ h1
  · intro h
    subst h
    exact notMem_pyReplace_single (by decide) _ hc

/-! ## Claim C8: the approvals list is deduplicated, order-preserving,
and empty (never absent) without qualifying lines -/

theorem dedupCI_sublist :
    ∀ (seen : List (List Char)) (l : List (List Char)),
      (dedupCI seen l).Sublist l
  | _, [] => List.Sublist.refl _
  | seen, x :: rest => by
    simp only [dedupCI]
    split
    · exact (dedupCI_sublist seen rest).cons x
    · exact (dedupCI_sublist _ rest).cons₂ x

theorem dedupCI_key_notMem_seen :
    ∀ (seen : List (List Char)) (l : List (List Char)) (y : List Char),
      y ∈ dedupCI seen l → y.map pyLowerChar ∉ seen
  | seen, [], y => by simp [dedupCI]
  | seen, x :: rest, y => by
    simp only [dedupCI]
    split
    · exact dedupCI_key_notMem_seen seen rest y
    · rename_i hcontains
      intro hy hseen
      rcases List.mem_cons.mp hy with h | h
      · subst h
        exact hcontains (List.elem_eq_true_of_mem hseen)
      · exact dedupCI_key_notMem_seen _ rest y h
          (List.mem_cons_of_mem _ hseen)

theorem dedupCI_pairwise :
    ∀ (seen : List (List Char)) (l : List (List Char)),
      (dedupCI seen l).Pairwise
        (fun a b => a.map pyLowerChar ≠ b.map pyLowerChar)
  | _, [] => List.Pairwise.nil
  | seen, x :: rest => by
    simp only [dedupCI]
    split
    · exact dedupCI_pairwise seen rest
    · refine List.Pairwise.cons ?_ (dedupCI_pairwise _ rest)
      intro y hy hxy
      exact dedupCI_key_notMem_seen _ rest y hy
        (hxy ▸ List.mem_cons_self _ _)

/-- Claim C8: for every input text the approvals list (a) contains no
two entries equal under case-insensitive comparison, (b) is a
subsequence of the qualifying items in their first-seen order, and
(c) is the empty sequence — never absent — when no qualifying line
exists. -/
theorem c8_approvals_dedup_order_empty (text : List Char) :
    (extractApprovals text).Pairwise
        (fun a b => a.map pyLowerChar ≠ b.map pyLowerChar) ∧
      (extractApprovals text).Sublist (approvalItems text) ∧
      (approvalItems text = [] → extractApprovals text = []) := by
  refine ⟨dedupCI_pairwise [] _, dedupCI_sublist [] _, fun h => ?_⟩
  show dedupCI [] (approvalItems text) = []
  rw [h]
  rfl

/-! ## Claim C9: `normalize_key` is idempotent -/

theorem pyReplaceGo_self (p : List Char) (hp : p ≠ []) (fuel : Nat) :
    ∀ s : List Char, s.length ≤ fuel → pyReplaceGo p p fuel s = s := by
  induction fuel with
  | zero =>
    intro s hs
    have hnil : s = [] := List.eq_nil_of_length_eq_zero (Nat.le_zero.mp hs)
    subst hnil
    rfl
  | succ n ih =>
    intro s hs
    match s with
    | [] => rfl
    | c :: t =>
      simp only [pyReplaceGo]
      split
      · rename_i hcond
        obtain ⟨u, hu⟩ := List.isPrefixOf_iff_prefix.mp hcond.2
        have hlen : p.length + u.length = t.length + 1 := by
          have h2 := congrArg List.length hu
          simpa using h2
        have hple : 0 < p.length := List.length_pos.mpr hp
        have hule : u.length ≤ n := by
          simp only [List.length_cons] at hs
          omega
        have hdrop : (c :: t).drop p.length = u := by
          rw [← hu, List.drop_left]
        rw [hdrop, ih u hule, hu]
      · have ht : t.length ≤ n := by
          simp only [List.length_cons] at hs
          omega
        rw [ih t ht]

theorem pyReplace_self (p : List Char) (hp : p ≠ []) (s : List Char) :
    pyReplace p p s = s :=
  pyReplaceGo_self p hp s.length s (Nat.le_refl _)

theorem foldl_pyReplace_self_id :
    ∀ (toks : List String) (x : List Char), (∀ t ∈ toks, t.toList ≠ []) →
      toks.foldl (fun acc t => pyReplace t.toList t.toList acc) x = x
  | [], _, _ => rfl
  | t :: rest, x, h => by
    simp only [List.foldl_cons]
    rw [pyReplace_self t.toList (h t (List.mem_cons_self _ _))]
    exact foldl_pyReplace_self_id rest x
      (fun r hr => h r (List.mem_cons_of_mem _ hr))

/-- The grade-token `replace` chain of `_norm_name` maps every token to
itself, so it is the identity. -/
theorem normName_eq_core (s : List Char) : normName s = normNameCore s :=
  foldl_pyReplace_self_id gradeTokens (normNameCore s) (by decide)

theorem pyLowerChar_of_lowerAlnum {c : Char} (h : isLowerAlnum c = true) :
    pyLowerChar c = c := by
  simp only [isLowerAlnum, isAsciiLower, isDigitChar, Bool.or_eq_true,
    Bool.and_eq_true, decide_eq_true_eq] at h
  unfold pyLowerChar
  rw [if_neg]
  simp only [Bool.and_eq_true, decide_eq_true_eq, not_and]
  intro h1
  omega

theorem nfkdChar_of_lowerAlnum {c : Char} (h : isLowerAlnum c = true) :
    nfkdChar c = [c] := by
  have hn : 97 ≤ c.toNat ∧ c.toNat ≤ 122 ∨ 48 ≤ c.toNat ∧ c.toNat ≤ 57 := by
    simpa [isLowerAlnum, isAsciiLower, isDigitChar, Bool.or_eq_true,
      Bool.and_eq_true, decide_eq_true_eq] using h
  unfold nfkdChar
  rw [if_neg (fun hc => by subst hc; exact absurd hn (by decide)),
    if_neg (fun hc => by subst hc; exact absurd hn (by decide)),
    if_neg (fun hc => by subst hc; exact absurd hn (by decide)),
    if_neg (fun hc => by subst hc; exact absurd hn (by decide)),
    if_neg (fun hc => by subst hc; exact absurd hn (by decide)),
    if_neg (fun hc : c.toNat = 160 => by omega),
    if_neg (fun hc => by subst hc; exact absurd hn (by decide)),
    if_neg (fun hc => by subst hc; exact absurd hn (by decide)),
    if_neg (fun hc => by subst hc; exact absurd hn (by decide))]

theorem isCombiningChar_of_lowerAlnum {c : Char}
    (h : isLowerAlnum c = true) : isCombiningChar c = false := by
  have hn : 97 ≤ c.toNat ∧ c.toNat ≤ 122 ∨ 48 ≤ c.toNat ∧ c.toNat ≤ 57 := by
    simpa [isLowerAlnum, isAsciiLower, isDigitChar, Bool.or_eq_true,
      Bool.and_eq_true, decide_eq_true_eq] using h
  simp only [isCombiningChar, Bool.and_eq_false_iff, decide_eq_false_iff_not]
  omega

theorem normNameCore_mem_alnum (s : List Char) :
    ∀ c ∈ normNameCore s, isLowerAlnum c = true := by
  intro c hc
  simp only [normNameCore] at hc
  exact List.of_mem_filter hc

theorem normNameCore_fix {l : List Char}
    (h : ∀ c ∈ l, isLowerAlnum c = true) : normNameCore l = l := by
  induction l with
  | nil => rfl
  | cons c t ih =>
    have hc := h c (List.mem_cons_self c t)
    have ht : ∀ d ∈ t, isLowerAlnum d = true :=
      fun d hd => h d (List.mem_cons_of_mem c hd)
    have ihr := ih ht
    simp only [normNameCore] at ihr ⊢
    simp only [List.map_cons, pyLowerChar_of_lowerAlnum hc,
      List.flatMap_cons, nfkdChar_of_lowerAlnum hc, List.singleton_append,
      List.filter_cons, isCombiningChar_of_lowerAlnum hc, hc]
    simp only [Bool.not_false, ite_true]
    rw [List.filter_cons_of_pos hc, ihr]

/-- Claim C9: `normalize_key` (`_norm_name`) is idempotent — its output
consists only of `[a-z0-9]` characters, on which lower-casing, NFKD
decomposition, the combining-mark filter, the alphanumeric filter and
the identity token replaces all act as the identity. -/
theorem c9_normname_idempotent (s : List Char) :
    normName (normName s) = normName s := by
  rw [normName_eq_core (normName s), normName_eq_core s,
    normNameCore_fix (normNameCore_mem_alnum s)]

/-! ## Claim C5: NotFound exactly when no exact and no substring match -/

/-- `_resolve_by_name` unfolded to its decision chain. -/
theorem resolveByName_eq (idx : List (List Char × List Char)) (name : List Char) :
    resolveByName idx name =
      if idx.isEmpty then .error .emptyIndex
      else
        match assocFind (buildNormMap idx) (normName name) with
        | some v => .ok v
        | none =>
          match firstSubMatch (buildNormMap idx) (normName name) with
          | some v => .ok v
          | none => .error (.notFound name) := rfl

theorem isSubstr_self (q : List Char) : isSubstr q q = true := by
  cases q with
  | nil => rfl
  | cons c t =>
    simp only [isSubstr, Bool.or_eq_true]
    exact Or.inl (List.isPrefixOf_iff_prefix.mpr (List.prefix_refl _))

/-- Claim C5: resolution fails exactly when no working-map key equals
the normalized query and none contains it as a substring (the first
conjunct is the exact-match clause, the second the substring clause); an
empty index fails with the distinguished EmptyIndex error; and a
successful resolution only ever returns a value stored in the working
map — never an arbitrary document. -/
theorem c5_notfound_iff_no_match
    (idx : List (List Char × List Char)) (q : List Char) :
    ((∃ e, resolveByName idx q = .error e) ↔
      ∀ p ∈ buildNormMap idx,
        p.1 ≠ normName q ∧ isSubstr (normName q) p.1 = false) ∧
      resolveByName [] q = .error .emptyIndex ∧
      (∀ v, resolveByName idx q = .ok v → ∃ p ∈ buildNormMap idx, p.2 = v) := by
  refine ⟨⟨?_, ?_⟩, rfl, ?_⟩
  · rintro ⟨e, he⟩ p hp
    rw [resolveByName_eq] at he
    by_cases hidx : idx.isEmpty
    · rw [List.isEmpty_iff.mp hidx] at hp
      simp [buildNormMap] at hp
    · rw [if_neg hidx] at he
      cases haf : assocFind (buildNormMap idx) (normName q) with
      | some v => rw [haf] at he; cases he
      | none =>
        cases hsm : firstSubMatch (buildNormMap idx) (normName q) with
        | some v => rw [haf, hsm] at he; cases he
        | none =>
          have hsub : isSubstr (normName q) p.1 = false := by
            have h1 : List.find? (fun r => isSubstr (normName q) r.1)
                (buildNormMap idx) = none := by
              simpa [firstSubMatch] using hsm
            have h2 := List.find?_eq_none.mp h1 p hp
            exact Bool.not_eq_true _ ▸ Bool.eq_false_iff.mpr h2
          refine ⟨fun hk => ?_, hsub⟩
          rw [hk] at hsub
          rw [isSubstr_self] at hsub
          cases hsub
  · intro hall
    by_cases hidx : idx.isEmpty
    · exact ⟨.emptyIndex, by rw [resolveByName_eq, if_pos hidx]⟩
    · refine ⟨.notFound q, ?_⟩
      rw [resolveByName_eq, if_neg hidx]
      have haf : assocFind (buildNormMap idx) (normName q) = none := by
        simp only [assocFind, Option.map_eq_none']
        rw [List.find?_eq_none]
        intro x hx
        simp only [beq_iff_eq]
        exact (hall x hx).1
      have hsm : firstSubMatch (buildNormMap idx) (normName q) = none := by
        simp only [firstSubMatch, Option.map_eq_none']
        rw [List.find?_eq_none]
        intro x hx
        rw [(hall x hx).2]
        exact Bool.false_ne_true
      rw [haf, hsm]
  · intro v hv
    rw [resolveByName_eq] at hv
    by_cases hidx : idx.isEmpty
    · rw [if_pos hidx] at hv
      cases hv
    · rw [if_neg hidx] at hv
      cases haf : assocFind (buildNormMap idx) (normName q) with
      | some w =>
        rw [haf] at hv
        obtain ⟨r, hr, hr2⟩ := Option.map_eq_some'.mp haf
        refine ⟨r, List.mem_of_find?_eq_some hr, ?_⟩
        rw [hr2]
        exact (Except.ok.injEq _ _ ▸ hv : w = v)
      | none =>
        rw [haf] at hv
        cases hsm : firstSubMatch (buildNormMap idx) (normName q) with
        | some w =>
          rw [hsm] at hv
          obtain ⟨r, hr, hr2⟩ := Option.map_eq_some'.mp hsm
          refine ⟨r, List.mem_of_find?_eq_some hr, ?_⟩
          rw [hr2]
          exact (Except.ok.injEq _ _ ▸ hv : w = v)
        | none =>
          rw [hsm] at hv
          cases hv

/-! ## Claim C10 (amended): empty-normalization queries never fail -/

theorem isSubstr_nil_left (s : List Char) : isSubstr [] s = true := by
  cases s with
  | nil => rfl
  | cons c t => simp [isSubstr, List.isPrefixOf]

/-- Claim C10 (amended): for every non-empty index (its working map is
some `(k0, v0) :: rest`) and every query normalizing to the empty
string, resolution never fails with an error; and in the case the claim
implicitly assumed — no working-map key is itself empty — the exact
match cannot fire and the substring fallback returns the first key's
value `v0`. (When some key normalizes to empty, the exact match may
return a different entry: see the counterexample.) -/
theorem c10_empty_query_never_notfound
    (idx : List (List Char × List Char)) (q k0 v0 : List Char)
    (rest : List (List Char × List Char))
    (hq : normName q = [])
    (hm : buildNormMap idx = (k0, v0) :: rest) :
    (∀ e, resolveByName idx q ≠ .error e) ∧
      ((∀ p ∈ buildNormMap idx, p.1 ≠ []) →
        resolveByName idx q = .ok v0) := by
  have hidx : ¬idx.isEmpty = true := by
    cases idx with
    | nil => exact absurd hm (by simp [buildNormMap])
    | cons a l => simp
  constructor
  · intro e
    rw [resolveByName_eq, if_neg hidx, hq, hm]
    cases haf : assocFind ((k0, v0) :: rest) [] with
    | some v => simp [haf]
    | none =>
      have hsm : firstSubMatch ((k0, v0) :: rest) [] = some v0 := by
        simp only [firstSubMatch]
        have hfind : List.find? (fun p : List Char × List Char => isSubstr [] p.1)
            ((k0, v0) :: rest) = some (k0, v0) :=
          List.find?_cons_of_pos _ (by simpa using isSubstr_nil_left k0)
        rw [hfind]
        rfl
      simp [haf, hsm]
  · intro hkeys
    rw [resolveByName_eq, if_neg hidx, hq, hm]
    have haf : assocFind ((k0, v0) :: rest) [] = none := by
      simp only [assocFind, Option.map_eq_none']
      rw [List.find?_eq_none]
      intro x hx
      simp only [beq_iff_eq]
      exact hkeys x (by rw [hm]; exact hx)
    have hsm : firstSubMatch ((k0, v0) :: rest) [] = some v0 := by
      simp only [firstSubMatch]
      have hfind : List.find? (fun p : List Char × List Char => isSubstr [] p.1)
          ((k0, v0) :: rest) = some (k0, v0) :=
        List.find?_cons_of_pos _ (by simpa using isSubstr_nil_left k0)
      rw [hfind]
      rfl
    rw [haf, hsm]

/-- Claim C10 (witness): the amended theorem at the concrete index
`[("A1", "docA")]` (working map `[("a1", "docA"), ("doca", "docA")]`,
no empty key) and the query `"???"`, which normalizes to empty: the
resolver returns `"docA"`, the first working-map entry's value. -/
theorem c10_empty_query_witness :
    (∀ e, resolveByName [("A1".toList, "docA".toList)] "???".toList
        ≠ .error e) ∧
      ((∀ p ∈ buildNormMap [("A1".toList, "docA".toList)], p.1 ≠ []) →
        resolveByName [("A1".toList, "docA".toList)] "???".toList
          = .ok "docA".toList) :=
  c10_empty_query_never_notfound [("A1".toList, "docA".toList)]
    "???".toList "a1".toList "docA".toList
    [("doca".toList, "docA".toList)] (by decide) (by decide)
